import Mathlib

/-!
Shallow embedding of the block-execution pipeline of
`node/src/components/contract_runtime/operations.rs` (casper-node), together
with proofs of the specification's testable properties.

Machine integers (`u64`) are modelled as `Nat`; Rust's checked arithmetic
(`checked_mul`, `checked_add`, `checked_sub`) becomes `Option Nat` with an
explicit `2 ^ 64` bound, and unchecked `u64` subtraction is modelled with the
release-mode wrapping semantics (`% 2 ^ 64`).  External collaborators (the
execution engine's LMDB-backed state, the executor, the validator-weights
oracle) are modelled as an oracle structure of pure functions, and every
engine interaction is recorded in an event trace so that statements such as
"no commit occurs" are expressible.  Metrics are omitted: per the interface
contract, absence of a metrics sink does not change behaviour.
-/

/-- The `u64` modulus. -/
def U64 : Nat := 2 ^ 64

/-- Rust `u64::checked_mul`. -/
def checked_mul (a b : Nat) : Option Nat :=
  if a * b < U64 then some (a * b) else none

/-- Rust `u64::checked_add`. -/
def checked_add (a b : Nat) : Option Nat :=
  if a + b < U64 then some (a + b) else none

/-- Rust `u64::checked_sub`. -/
def checked_sub (a b : Nat) : Option Nat :=
  if b ≤ a then some (a - b) else none

/-- Rust release-mode `u64` subtraction of one, which wraps at `0`
(debug builds panic instead). -/
def wrapping_sub_one (h : Nat) : Nat :=
  (h + (U64 - 1)) % U64

/-- Embeds `casper_types::EraId`: a newtype over `u64`. -/
structure EraId where
  value : Nat
deriving DecidableEq, Repr

/-- Embeds `EraId::successor`. -/
def EraId.successor (e : EraId) : EraId :=
  ⟨e.value + 1⟩

/-- Embeds `casper_types::Key`.  Only the variant used by this component
(`Key::EraInfo`) is modelled; the other variants are never constructed or
inspected by the code under verification. -/
inductive Key where
  | eraInfo : EraId → Key
deriving DecidableEq, Repr

/-- Embeds `generate_range_by_index` (operations.rs lines 35-39): the `index`-th
chunk of size `m` of the range `[0, n)`, as a `(start, end)` pair, `none`
when the checked arithmetic overflows (Rust's `?` operator becomes an
explicit match). -/
def generate_range_by_index (n m index : Nat) : Option (Nat × Nat) :=
  match checked_mul index m with
  | none => none
  | some start =>
    match checked_add start m with
    | none => none
    | some e => some (start, min e n)

/-- Embeds `calculate_purge_eras` (operations.rs lines 46-72): the era-info keys to
be pruned at `current_height`, or `none` when there is nothing to do. -/
def calculate_purge_eras (activation_era_id : EraId) (activation_height : Nat)
    (current_height : Nat) (batch_size : Nat) : Option (List Key) :=
  if batch_size = 0 then
    -- Nothing to do, the batch size is 0.
    none
  else
    match checked_sub current_height activation_height with
    | none =>
      -- Time went backwards, programmer error, etc
      none
    | some nth_chunk =>
      match generate_range_by_index activation_era_id.value batch_size nth_chunk with
      | none => none
      | some (s, e) =>
        if e ≤ s then
          none
        else
          some ((List.range' s (e - s)).map (fun i => Key.eraInfo ⟨i⟩))

/-- C3: with `activation_era_id = 5`, `activation_height = 50` and
`batch_size = 2`, `calculate_purge_eras` returns the `EraInfo` keys for eras
`{0,1}` at height 50, `{2,3}` at height 51, `{4}` at height 52, and `none`
at height 53: the chunk number `current_height - activation_height` selects
the batch within `[0, activation_era_id)`. -/
theorem calculate_purge_eras_example_batches :
    calculate_purge_eras ⟨5⟩ 50 50 2 = some [Key.eraInfo ⟨0⟩, Key.eraInfo ⟨1⟩] ∧
    calculate_purge_eras ⟨5⟩ 50 51 2 = some [Key.eraInfo ⟨2⟩, Key.eraInfo ⟨3⟩] ∧
    calculate_purge_eras ⟨5⟩ 50 52 2 = some [Key.eraInfo ⟨4⟩] ∧
    calculate_purge_eras ⟨5⟩ 50 53 2 = none := by
  refine ⟨?_, ?_, ?_, ?_⟩ <;> decide

/-- Characterisation of a successful `checked_sub`. -/
theorem checked_sub_some {c d n : Nat} (h : checked_sub c d = some n) :
    n = c - d ∧ d ≤ c := by
  unfold checked_sub at h
  split at h
  · cases h
    exact ⟨rfl, by assumption⟩
  · exact absurd h (by simp)

/-- Characterisation of a successful `generate_range_by_index`. -/
theorem generate_range_by_index_some {n m i s e : Nat}
    (h : generate_range_by_index n m i = some (s, e)) :
    s = i * m ∧ e = min (i * m + m) n := by
  unfold generate_range_by_index at h
  split at h
  · exact absurd h (by simp)
  rename_i start hm
  split at h
  · exact absurd h (by simp)
  rename_i t ha
  simp only [Option.some.injEq, Prod.mk.injEq] at h
  obtain ⟨h1, h2⟩ := h
  unfold checked_mul at hm
  unfold checked_add at ha
  split at hm
  · injection hm with hm'
    split at ha
    · injection ha with ha'
      omega
    · exact absurd ha (by simp)
  · exact absurd hm (by simp)

/-- C4: `calculate_purge_eras` is total (it is a Lean function defined by
checked arithmetic only, so no input panics or wraps) and returns `none` on
every degenerate input: a zero batch size, a zero activation era id, a
current height below the activation height, and any overflow inside the
chunk start/end arithmetic of `generate_range_by_index`. -/
theorem calculate_purge_eras_degenerate_safe (a : EraId) (ah ch b : Nat) :
    (b = 0 → calculate_purge_eras a ah ch b = none) ∧
    (a.value = 0 → calculate_purge_eras a ah ch b = none) ∧
    (ch < ah → calculate_purge_eras a ah ch b = none) ∧
    (generate_range_by_index a.value b (ch - ah) = none →
      calculate_purge_eras a ah ch b = none) := by
  refine ⟨?_, ?_, ?_, ?_⟩
  · intro hb
    simp [calculate_purge_eras, hb]
  · intro ha
    unfold calculate_purge_eras
    split
    · rfl
    cases hcs : checked_sub ch ah with
    | none => rfl
    | some nth =>
      dsimp only
      cases hg : generate_range_by_index a.value b nth with
      | none => rfl
      | some pr =>
        obtain ⟨s, e⟩ := pr
        dsimp only
        obtain ⟨hs, he⟩ := generate_range_by_index_some hg
        rw [if_pos (by omega)]
  · intro hlt
    unfold calculate_purge_eras
    split
    · rfl
    have : checked_sub ch ah = none := by
      unfold checked_sub
      rw [if_neg (by omega)]
    rw [this]
  · intro hgen
    unfold calculate_purge_eras
    split
    · rfl
    cases hcs : checked_sub ch ah with
    | none => rfl
    | some nth =>
      dsimp only
      obtain ⟨hnth, _⟩ := checked_sub_some hcs
      rw [hnth, hgen]

/-- Witness for C4 at concrete inputs, including `u64::MAX` values, one per
degenerate condition. -/
theorem calculate_purge_eras_degenerate_safe_witness :
    calculate_purge_eras ⟨18446744073709551615⟩ 18446744073709551615
        18446744073709551615 0 = none ∧
    calculate_purge_eras ⟨0⟩ 1 18446744073709551615 7 = none ∧
    calculate_purge_eras ⟨5⟩ 50 49 2 = none ∧
    calculate_purge_eras ⟨18446744073709551615⟩ 1 18446744073709551615
        18446744073709551615 = none := by
  refine ⟨?_, ?_, ?_, ?_⟩
  · exact (calculate_purge_eras_degenerate_safe _ _ _ _).1 rfl
  · exact (calculate_purge_eras_degenerate_safe _ _ _ _).2.1 rfl
  · exact (calculate_purge_eras_degenerate_safe _ _ _ _).2.2.1 (by omega)
  · exact (calculate_purge_eras_degenerate_safe _ _ _ _).2.2.2 (by decide)

/-- C10: whenever `calculate_purge_eras` returns `some keys`, the list is
non-empty, has at most `batch_size` elements, and consists of `EraInfo` keys
for consecutive era ids starting at
`(current_height - activation_height) * batch_size`, all strictly below
`activation_era_id`. -/
theorem calculate_purge_eras_some_spec (a : EraId) (ah ch b : Nat)
    (keys : List Key) (h : calculate_purge_eras a ah ch b = some keys) :
    keys ≠ [] ∧ keys.length ≤ b ∧
    keys = (List.range' ((ch - ah) * b) keys.length).map
      (fun i => Key.eraInfo ⟨i⟩) ∧
    (ch - ah) * b + keys.length ≤ a.value := by
  unfold calculate_purge_eras at h
  split at h
  · exact absurd h (by simp)
  split at h
  · exact absurd h (by simp)
  rename_i nth hcs
  split at h
  · exact absurd h (by simp)
  rename_i s e hg
  split at h
  · exact absurd h (by simp)
  rename_i hne
  injection h with h'
  obtain ⟨hs, he⟩ := generate_range_by_index_some hg
  obtain ⟨hnth, _⟩ := checked_sub_some hcs
  subst h' hs hnth
  refine ⟨?_, ?_, ?_, ?_⟩
  · simp only [ne_eq, List.map_eq_nil_iff, List.range'_eq_nil]
    omega
  · simp only [List.length_map, List.length_range']
    omega
  · simp only [List.length_map, List.length_range']
  · simp only [List.length_map, List.length_range']
    omega

/-- Witness for C10 at a concrete input. -/
theorem calculate_purge_eras_some_spec_witness :
    [Key.eraInfo ⟨0⟩, Key.eraInfo ⟨1⟩] ≠ ([] : List Key) ∧
    ([Key.eraInfo ⟨0⟩, Key.eraInfo ⟨1⟩] : List Key).length ≤ 2 ∧
    ([Key.eraInfo ⟨0⟩, Key.eraInfo ⟨1⟩] : List Key) =
      (List.range' ((50 - 50) * 2)
        ([Key.eraInfo ⟨0⟩, Key.eraInfo ⟨1⟩] : List Key).length).map
        (fun i => Key.eraInfo ⟨i⟩) ∧
    (50 - 50) * 2 + ([Key.eraInfo ⟨0⟩, Key.eraInfo ⟨1⟩] : List Key).length ≤
      (EraId.mk 5).value :=
  calculate_purge_eras_some_spec ⟨5⟩ 50 50 2 _ (by decide)

/-- Digests (`casper_hashing::Digest`), public keys, deploy hashes, deploy
headers, execution journals (effects), engine-state errors and step errors
are opaque to the pipeline logic: the code under verification only threads
them around, so each is modelled as `Nat`. -/
abbrev Digest := Nat

/-- Opaque `casper_types::PublicKey`. -/
abbrev PublicKey := Nat

/-- Opaque `casper_types::DeployHash`. -/
abbrev DeployHash := Nat

/-- Opaque `casper_node::types::DeployHeader`. -/
abbrev DeployHeader := Nat

/-- Opaque execution journal / transform set
(`AdditiveMap<Key, Transform>`): the pipeline only hands it to the engine's
`apply_effect`. -/
abbrev Effect := Nat

/-- Opaque `engine_state::Error`. -/
abbrev EngineError := Nat

/-- Opaque `engine_state::StepError`. -/
abbrev StepError := Nat

/-- Embeds `consensus::EraReport<PublicKey>`: equivocators, per-validator
rewards, inactive validators. -/
structure EraReport where
  equivocators : List PublicKey
  rewards : List (PublicKey × Nat)
  inactive_validators : List PublicKey
deriving DecidableEq, Repr

/-- Embeds the fields of `types::FinalizedBlock` read by the pipeline:
height, timestamp, era id, optional era report (switch blocks only) and
proposer. -/
structure FinalizedBlock where
  height : Nat
  timestamp_millis : Nat
  era_id : EraId
  era_report : Option EraReport
  proposer : PublicKey
deriving DecidableEq, Repr

/-- Embeds `contract_runtime::ExecutionPreState`. -/
structure ExecutionPreState where
  pre_state_root_hash : Digest
  parent_hash : Digest
  parent_seed : Nat
  next_block_height : Nat
deriving DecidableEq, Repr

/-- Embeds the fields of `types::Deploy` read by the pipeline: its id
(hash) and header. -/
structure Deploy where
  id : DeployHash
  header : DeployHeader
deriving DecidableEq, Repr

/-- Embeds `engine_state::ExecuteRequest` as built at operations.rs lines
113-119: the current state root, block time, a singleton deploy list, the
protocol version and the block proposer. -/
structure ExecuteRequest where
  parent_state_hash : Digest
  block_time : Nat
  deploys : List Deploy
  protocol_version : Nat
  proposer : PublicKey
deriving DecidableEq, Repr

/-- Embeds `engine_state::ExecutionResult` as consumed at operations.rs
lines 304-327: a success or failure outcome, each carrying an execution
journal and a cost (failures also carry an error). -/
inductive EngineExecutionResult where
  | success (execution_journal : Effect) (cost : Nat)
  | failure (error : Nat) (execution_journal : Effect) (cost : Nat)
deriving DecidableEq, Repr

/-- The execution journal extracted from either outcome (the `match` at
operations.rs lines 304-327: both success and failure yield their journal
as the effect to commit). -/
def EngineExecutionResult.journal : EngineExecutionResult → Effect
  | .success j _ => j
  | .failure _ j _ => j

/-- Embeds `casper_types::ExecutionResult`, the consensus-visible
per-deploy result produced by `ExecutionResult::from(&ee_execution_result)`
(operations.rs line 302). -/
inductive ExecutionResult where
  | success (effect : Effect) (cost : Nat)
  | failure (effect : Effect) (cost : Nat) (error_message : Nat)
deriving DecidableEq, Repr

/-- The conversion `ExecutionResult::from(&EngineExecutionResult)`. -/
def ExecutionResult.ofEngine : EngineExecutionResult → ExecutionResult
  | .success j c => .success j c
  | .failure e j c => .failure j c e

/-- Embeds `step::RewardItem`. -/
structure RewardItem where
  validator_id : PublicKey
  value : Nat
deriving DecidableEq, Repr

/-- Embeds `step::EvictItem`. -/
structure EvictItem where
  validator_id : PublicKey
deriving DecidableEq, Repr

/-- Embeds `step::SlashItem`. -/
structure SlashItem where
  validator_id : PublicKey
deriving DecidableEq, Repr

/-- Embeds `engine_state::step::StepRequest` (operations.rs lines 408-417).
The field declarations live in the execution-engine crate, outside src/.
Modelled from the spec: the eviction set is the *union* of inactive
validators and equivocators (a validator in both sets is evicted once), so
`evict_items` is a duplicate-free collection, here a deduplicated list. -/
structure StepRequest where
  pre_state_hash : Digest
  protocol_version : Nat
  reward_items : List RewardItem
  slash_items : List SlashItem
  evict_items : List EvictItem
  next_era_id : EraId
  era_end_timestamp_millis : Nat
deriving DecidableEq, Repr

/-- Embeds `engine_state::StepSuccess`. -/
structure StepSuccess where
  post_state_hash : Digest
  execution_journal : Effect
deriving DecidableEq, Repr

/-- Embeds `purge::PurgeConfig`. -/
structure PurgeConfig where
  state_root_hash : Digest
  keys_to_purge : List Key
deriving DecidableEq, Repr

/-- Embeds `purge::PurgeResult`. -/
inductive PurgeResult where
  | rootNotFound
  | doesNotExist
  | success (post_state_hash : Digest)
deriving DecidableEq, Repr

/-- Embeds `types::ActivationPoint`. -/
inductive ActivationPoint where
  | eraId (era_id : EraId)
  | genesis (timestamp : Nat)
deriving DecidableEq, Repr

/-- A validator-weight map (`BTreeMap<PublicKey, U512>`), as an association
list. -/
abbrev ValidatorWeights := List (PublicKey × Nat)

/-- The era-validators map returned by `get_era_validators`
(`BTreeMap<EraId, BTreeMap<PublicKey, U512>>`), as an association list. -/
abbrev EraValidators := List (EraId × ValidatorWeights)

/-- `BTreeMap::get` on the era-validators map. -/
def lookupEra (m : EraValidators) (e : EraId) : Option ValidatorWeights :=
  (m.find? (fun p => p.1 = e)).map (fun p => p.2)

/-- Embeds `types::StepEffectAndUpcomingEraValidators`. -/
structure StepEffectAndUpcomingEraValidators where
  step_execution_journal : Effect
  upcoming_era_validators : EraValidators
deriving DecidableEq, Repr

/-- Embeds `contract_runtime::error::BlockExecutionError`, restricted to
the variants the pipeline can produce. -/
inductive BlockCreationError where
  | missingNextEraValidatorWeights
  | unexpectedNextEraValidatorWeights
deriving DecidableEq, Repr

/-- Embeds the output `types::Block` at the granularity the claims need:
header linkage, final state root, the finalized block it was built from,
and the optional era end (era report plus next-era validator weights). -/
structure Block where
  parent_hash : Digest
  parent_seed : Nat
  state_root_hash : Digest
  finalized_block : FinalizedBlock
  era_end : Option (EraReport × ValidatorWeights)
  protocol_version : Nat
deriving DecidableEq, Repr

/-- Modelled from the spec: `Block::new` (node/src/types/block.rs) is not
under src/.  Per the spec, a switch block whose next-era validator weights
are absent is an internal error, never a silently weight-less block, and
weights are present exactly when a step ran; either mismatch between the
era report and the weights is therefore an error. -/
def Block.new (parent_hash : Digest) (parent_seed : Nat)
    (state_root_hash : Digest) (finalized_block : FinalizedBlock)
    (next_era_validator_weights : Option ValidatorWeights)
    (protocol_version : Nat) : Except BlockCreationError Block :=
  match finalized_block.era_report, next_era_validator_weights with
  | some report, some weights =>
    .ok ⟨parent_hash, parent_seed, state_root_hash, finalized_block,
      some (report, weights), protocol_version⟩
  | none, none =>
    .ok ⟨parent_hash, parent_seed, state_root_hash, finalized_block,
      none, protocol_version⟩
  | some _, none => .error .missingNextEraValidatorWeights
  | none, some _ => .error .unexpectedNextEraValidatorWeights

/-- Embeds `contract_runtime::error::BlockExecutionError`. -/
inductive BlockExecutionError where
  | wrongBlockHeight (finalized_block : FinalizedBlock)
      (execution_pre_state : ExecutionPreState)
  | moreThanOneExecutionResult
  | engine (error : EngineError)
  | step (error : StepError)
  | blockCreation (error : BlockCreationError)
deriving DecidableEq, Repr

/-- Embeds `contract_runtime::BlockAndExecutionEffects`. -/
structure BlockAndExecutionEffects where
  block : Block
  execution_results : List (DeployHash × (DeployHeader × ExecutionResult))
  maybe_step_effect_and_upcoming_era_validators :
    Option StepEffectAndUpcomingEraValidators
deriving DecidableEq, Repr

/-- One engine interaction of the pipeline; the pipeline returns the list
of interactions it performed, in order, so that statements such as "no
commit occurs before the error" are expressible. -/
inductive Event where
  | getScratch
  | runExecute (request : ExecuteRequest)
  | applyEffect (state_root_hash : Digest) (effects : Effect)
  | commitStep (request : StepRequest)
  | writeScratch (state_root_hash : Digest)
  | getEraValidators (state_root_hash : Digest)
  | flushEnvironment
  | commitPurge (config : PurgeConfig)
deriving DecidableEq, Repr

/-- The external execution engine (`EngineState<LmdbGlobalState>` and the
scratch state derived from it), as an oracle of pure functions: the
pipeline is deterministic relative to these. -/
structure Engine where
  run_execute : ExecuteRequest → Except EngineError (List EngineExecutionResult)
  apply_effect : Digest → Effect → Except EngineError Digest
  commit_step : StepRequest → Except StepError StepSuccess
  write_scratch_to_db : Digest → Except EngineError Digest
  get_era_validators : Digest → Except EngineError EraValidators
  commit_purge : PurgeConfig → Except EngineError PurgeResult
  flush_environment : Except EngineError Unit

/-- Itertools' `exactly_one`: `some` exactly when the iterator yields one
element (operations.rs line 300 maps its error to
`MoreThanOneExecutionResult`). -/
def exactly_one {α : Type} : List α → Option α
  | [x] => some x
  | _ => none

/-- Embeds `commit_transforms` (operations.rs lines 334-353): apply the
effects at the given root via the engine. -/
def commit_transforms (engine_state : Engine) (state_root_hash : Digest)
    (effects : Effect) : Except EngineError Digest × List Event :=
  (engine_state.apply_effect state_root_hash effects,
   [.applyEffect state_root_hash effects])

/-- Embeds `commit_execution_effects` (operations.rs lines 287-332):
require exactly one execution result, extract its journal (success or
failure alike), commit it, and return the new root with the
consensus-visible execution result. -/
def commit_execution_effects (engine_state : Engine)
    (state_root_hash : Digest) (_deploy_hash : DeployHash)
    (execution_results : List EngineExecutionResult) :
    Except BlockExecutionError (Digest × ExecutionResult) × List Event :=
  match exactly_one execution_results with
  | none => (.error .moreThanOneExecutionResult, [])
  | some ee_execution_result =>
    let json_execution_result := ExecutionResult.ofEngine ee_execution_result
    let execution_effect := ee_execution_result.journal
    match commit_transforms engine_state state_root_hash execution_effect with
    | (.error e, evs) => (.error (.engine e), evs)
    | (.ok new_state_root, evs) =>
      (.ok (new_state_root, json_execution_result), evs)

/-- Builds the `ExecuteRequest` of operations.rs lines 113-119 for one
deploy against the current working root. -/
def mkExecuteRequest (state_root_hash : Digest) (block_time : Nat)
    (deploy : Deploy) (protocol_version : Nat) (proposer : PublicKey) :
    ExecuteRequest :=
  ⟨state_root_hash, block_time, [deploy], protocol_version, proposer⟩

/-- Embeds the deploy loop of `execute_finalized_block` (operations.rs
lines 110-139): for each deploy in order, execute against the current
working root, commit the resulting effect, record the result, and advance
the root. -/
def run_deploys (engine_state : Engine) (block_time : Nat)
    (protocol_version : Nat) (proposer : PublicKey) :
    Digest → List Deploy →
    Except BlockExecutionError
      (Digest × List (DeployHash × DeployHeader × ExecutionResult)) ×
    List Event
  | state_root_hash, [] => (.ok (state_root_hash, []), [])
  | state_root_hash, deploy :: rest =>
    let execute_request :=
      mkExecuteRequest state_root_hash block_time deploy protocol_version
        proposer
    match engine_state.run_execute execute_request with
    | .error e => (.error (.engine e), [.runExecute execute_request])
    | .ok result =>
      match commit_execution_effects engine_state state_root_hash deploy.id
          result with
      | (.error e, evs) => (.error e, .runExecute execute_request :: evs)
      | (.ok (state_hash, execution_result), evs) =>
        match run_deploys engine_state block_time protocol_version proposer
            state_hash rest with
        | (.error e, rest_evs) =>
          (.error e, .runExecute execute_request :: evs ++ rest_evs)
        | (.ok (final_root, results), rest_evs) =>
          (.ok (final_root,
             (deploy.id, deploy.header, execution_result) :: results),
           .runExecute execute_request :: evs ++ rest_evs)

/-- Embeds the `StepRequest` construction of `commit_step` (operations.rs
lines 388-417): reward items from the reward map, no slashing, and the
eviction set from inactive validators and equivocators (the collection
type is spec-modelled as deduplicating, see `StepRequest`). -/
def build_step_request (protocol_version : Nat)
    (pre_state_root_hash : Digest) (era_report : EraReport)
    (era_end_timestamp_millis : Nat) (next_era_id : EraId) : StepRequest :=
  { pre_state_hash := pre_state_root_hash
    protocol_version := protocol_version
    reward_items := era_report.rewards.map (fun p => ⟨p.1, p.2⟩)
    -- Note: The Casper Network does not slash, but another network could
    slash_items := []
    -- Both inactive validators and equivocators are evicted
    evict_items :=
      ((era_report.inactive_validators ++ era_report.equivocators).dedup).map
        (fun v => ⟨v⟩)
    next_era_id := next_era_id
    era_end_timestamp_millis := era_end_timestamp_millis }

/-- Embeds `commit_step` (operations.rs lines 375-430): build the step
request and have the engine commit it. -/
def commit_step (engine_state : Engine) (protocol_version : Nat)
    (pre_state_root_hash : Digest) (era_report : EraReport)
    (era_end_timestamp_millis : Nat) (next_era_id : EraId) :
    Except StepError StepSuccess × List Event :=
  let step_request := build_step_request protocol_version
    pre_state_root_hash era_report era_end_timestamp_millis next_era_id
  (engine_state.commit_step step_request, [.commitStep step_request])

/-- Embeds the step-and-flush phase of `execute_finalized_block`
(operations.rs lines 145-184): on a switch block run the step against the
working root, write the scratch state to durable storage, and query the
upcoming era validators at the new root; otherwise only write the scratch
state. -/
def step_phase (engine_state : Engine) (protocol_version : Nat)
    (finalized_block : FinalizedBlock) (state_root_hash : Digest) :
    Except BlockExecutionError
      (Digest × Option StepEffectAndUpcomingEraValidators) × List Event :=
  match finalized_block.era_report with
  | some era_report =>
    match commit_step engine_state protocol_version state_root_hash
        era_report finalized_block.timestamp_millis
        finalized_block.era_id.successor with
    | (.error e, evs) => (.error (.step e), evs)
    | (.ok step_success, evs) =>
      -- the post-state-hash returned from scratch is ignored
      match engine_state.write_scratch_to_db state_root_hash with
      | .error e => (.error (.engine e), evs ++ [.writeScratch state_root_hash])
      | .ok new_root =>
        match engine_state.get_era_validators new_root with
        | .error e =>
          (.error (.engine e),
           evs ++ [.writeScratch state_root_hash, .getEraValidators new_root])
        | .ok upcoming_era_validators =>
          (.ok (new_root,
             some ⟨step_success.execution_journal, upcoming_era_validators⟩),
           evs ++ [.writeScratch state_root_hash, .getEraValidators new_root])
  | none =>
    match engine_state.write_scratch_to_db state_root_hash with
    | .error e => (.error (.engine e), [.writeScratch state_root_hash])
    | .ok new_root => (.ok (new_root, none), [.writeScratch state_root_hash])

/-- Embeds the purge phase of `execute_finalized_block` (operations.rs
lines 209-263).  `block_height - 1` is the unguarded `u64` subtraction of
line 213, with release-mode wrapping semantics (`wrapping_sub_one`).  A
purge outcome of "root not found" or "key does not exist" is logged and
leaves the root unchanged; success advances the root; a commit error is
fatal.  The branches without an activation height, or with a genesis
activation point, only log. -/
def purge_phase (engine_state : Engine) (activation_point : ActivationPoint)
    (activation_point_block_height : Option Nat) (purge_batch_size : Nat)
    (block_height : Nat) (state_root_hash : Digest) :
    Except BlockExecutionError Digest × List Event :=
  match activation_point, activation_point_block_height with
  | .eraId activation_point, some activation_point_block_height =>
    let previous_block_height := wrapping_sub_one block_height
    match calculate_purge_eras activation_point
        activation_point_block_height previous_block_height
        purge_batch_size with
    | some keys_to_purge =>
      let purge_config : PurgeConfig := ⟨state_root_hash, keys_to_purge⟩
      match engine_state.commit_purge purge_config with
      | .ok .rootNotFound =>
        -- error!("commit_purge: root not found"); treated as a no-op
        (.ok state_root_hash, [.commitPurge purge_config])
      | .ok .doesNotExist =>
        -- warn!("commit_purge: key does not exist"); treated as a no-op
        (.ok state_root_hash, [.commitPurge purge_config])
      | .ok (.success post_state_hash) =>
        (.ok post_state_hash, [.commitPurge purge_config])
      | .error e => (.error (.engine e), [.commitPurge purge_config])
    | none =>
      -- info!("commit_purge: nothing to do, no more eras to delete")
      (.ok state_root_hash, [])
  | .eraId _, none => (.ok state_root_hash, [])
  | .genesis _, some _ => (.ok state_root_hash, [])
  | .genesis _, none => (.ok state_root_hash, [])

/-- Embeds `execute_finalized_block` (operations.rs lines 76-284): height
check, scratch state, deploy loop over deploys then transfers, step on
switch blocks, durable write, flush, next-era weights lookup, purge, and
block assembly. -/
def execute_finalized_block (engine_state : Engine) (protocol_version : Nat)
    (execution_pre_state : ExecutionPreState)
    (finalized_block : FinalizedBlock) (deploys transfers : List Deploy)
    (activation_point : ActivationPoint)
    (activation_point_block_height : Option Nat) (purge_batch_size : Nat) :
    Except BlockExecutionError BlockAndExecutionEffects × List Event :=
  if finalized_block.height ≠ execution_pre_state.next_block_height then
    (.error (.wrongBlockHeight finalized_block execution_pre_state), [])
  else
    -- `block_time = finalized_block.timestamp().millis()` and
    -- `next_era_validator_weights` are inlined at their use sites.
    match run_deploys engine_state finalized_block.timestamp_millis
        protocol_version finalized_block.proposer
        execution_pre_state.pre_state_root_hash (deploys ++ transfers) with
    | (.error e, evs) => (.error e, .getScratch :: evs)
    | (.ok (root_after_deploys, execution_results), deploy_evs) =>
      match step_phase engine_state protocol_version finalized_block
          root_after_deploys with
      | (.error e, step_evs) => (.error e, .getScratch :: deploy_evs ++ step_evs)
      | (.ok (root_after_step, maybe_step_effect_and_upcoming_era_validators),
         step_evs) =>
        match engine_state.flush_environment with
        | .error e =>
          (.error (.engine e),
           .getScratch :: deploy_evs ++ step_evs ++ [.flushEnvironment])
        | .ok _ =>
          match purge_phase engine_state activation_point
              activation_point_block_height purge_batch_size
              finalized_block.height root_after_step with
          | (.error e, purge_evs) =>
            (.error e,
             .getScratch :: deploy_evs ++ step_evs ++ [.flushEnvironment] ++
               purge_evs)
          | (.ok final_root, purge_evs) =>
            match Block.new execution_pre_state.parent_hash
                execution_pre_state.parent_seed final_root finalized_block
                (maybe_step_effect_and_upcoming_era_validators.bind
                  (fun s => lookupEra s.upcoming_era_validators
                    finalized_block.era_id.successor))
                protocol_version with
            | .error e =>
              (.error (.blockCreation e),
               .getScratch :: deploy_evs ++ step_evs ++ [.flushEnvironment] ++
                 purge_evs)
            | .ok block =>
              (.ok ⟨block,
                 execution_results.map (fun x => (x.1, (x.2.1, x.2.2))),
                 maybe_step_effect_and_upcoming_era_validators⟩,
               .getScratch :: deploy_evs ++ step_evs ++ [.flushEnvironment] ++
                 purge_evs)

/-- A concrete engine used by the closed witnesses: execution always
succeeds with exactly one result, committing advances the root by one, the
step succeeds, and the validator-weights oracle knows era 2. -/
def testEngine : Engine :=
  { run_execute := fun _ => .ok [.success 1 10]
    apply_effect := fun root _ => .ok (root + 1)
    commit_step := fun req => .ok ⟨req.pre_state_hash + 1, 5⟩
    write_scratch_to_db := fun root => .ok root
    get_era_validators := fun _ => .ok [(⟨2⟩, [(7, 100)])]
    commit_purge := fun cfg => .ok (.success (cfg.state_root_hash + 1))
    flush_environment := .ok () }

/-- C2: if the finalized block's height differs from the pre-state's next
block height, `execute_finalized_block` returns the `WrongBlockHeight`
error with an empty interaction trace: no scratch state is obtained and no
commit or durable write of any kind happens before the error. -/
theorem execute_finalized_block_wrong_height (engine_state : Engine)
    (protocol_version : Nat) (execution_pre_state : ExecutionPreState)
    (finalized_block : FinalizedBlock) (deploys transfers : List Deploy)
    (activation_point : ActivationPoint)
    (activation_point_block_height : Option Nat) (purge_batch_size : Nat)
    (h : finalized_block.height ≠ execution_pre_state.next_block_height) :
    execute_finalized_block engine_state protocol_version
        execution_pre_state finalized_block deploys transfers
        activation_point activation_point_block_height purge_batch_size =
      (.error (.wrongBlockHeight finalized_block execution_pre_state), []) := by
  unfold execute_finalized_block
  rw [if_pos h]

/-- Witness for C2 at a concrete mismatching input. -/
theorem execute_finalized_block_wrong_height_witness :
    execute_finalized_block testEngine 1 ⟨10, 0, 0, 5⟩ ⟨4, 0, ⟨1⟩, none, 9⟩
        [] [] (.genesis 0) none 0 =
      (.error (.wrongBlockHeight ⟨4, 0, ⟨1⟩, none, 9⟩ ⟨10, 0, 0, 5⟩), []) :=
  execute_finalized_block_wrong_height _ _ _ _ _ _ _ _ _ (by decide)

/-- `exactly_one` yields `none` exactly off the singleton case. -/
theorem exactly_one_eq_none {α : Type} (l : List α) (h : l.length ≠ 1) :
    exactly_one l = none := by
  match l with
  | [] => rfl
  | [x] => exact absurd rfl h
  | x :: y :: rest => rfl

/-- C9: any execution-result count other than exactly one — including
zero — makes `commit_execution_effects` fail with the single
`MoreThanOneExecutionResult` error variant, before any commit. -/
theorem commit_execution_effects_not_exactly_one (engine_state : Engine)
    (state_root_hash : Digest) (deploy_hash : DeployHash)
    (execution_results : List EngineExecutionResult)
    (h : execution_results.length ≠ 1) :
    commit_execution_effects engine_state state_root_hash deploy_hash
        execution_results =
      (.error .moreThanOneExecutionResult, []) := by
  unfold commit_execution_effects
  rw [exactly_one_eq_none execution_results h]

/-- Witness for C9: zero results from the executor. -/
theorem commit_execution_effects_not_exactly_one_witness :
    commit_execution_effects testEngine 10 3 [] =
      (.error .moreThanOneExecutionResult, []) :=
  commit_execution_effects_not_exactly_one _ _ _ _ (by decide)

/-- C7: in the purge phase, a `RootNotFound` or `DoesNotExist` purge
outcome is a logged no-op (processing continues with the state root
unchanged), a `Success` outcome advances the state root to the returned
post-state hash, and a commit error is fatal (the returned error aborts
the block, since `execute_finalized_block` propagates it). -/
theorem purge_phase_outcomes (engine_state : Engine)
    (activation_point : EraId) (activation_point_block_height : Nat)
    (purge_batch_size block_height : Nat) (state_root_hash : Digest)
    (keys : List Key)
    (hcalc : calculate_purge_eras activation_point
      activation_point_block_height (wrapping_sub_one block_height)
      purge_batch_size = some keys) :
    ((engine_state.commit_purge ⟨state_root_hash, keys⟩ = .ok .rootNotFound ∨
      engine_state.commit_purge ⟨state_root_hash, keys⟩ = .ok .doesNotExist) →
      purge_phase engine_state (.eraId activation_point)
          (some activation_point_block_height) purge_batch_size block_height
          state_root_hash =
        (.ok state_root_hash, [.commitPurge ⟨state_root_hash, keys⟩])) ∧
    (∀ post, engine_state.commit_purge ⟨state_root_hash, keys⟩ =
        .ok (.success post) →
      purge_phase engine_state (.eraId activation_point)
          (some activation_point_block_height) purge_batch_size block_height
          state_root_hash =
        (.ok post, [.commitPurge ⟨state_root_hash, keys⟩])) ∧
    (∀ e, engine_state.commit_purge ⟨state_root_hash, keys⟩ = .error e →
      purge_phase engine_state (.eraId activation_point)
          (some activation_point_block_height) purge_batch_size block_height
          state_root_hash =
        (.error (.engine e), [.commitPurge ⟨state_root_hash, keys⟩])) := by
  refine ⟨?_, ?_, ?_⟩
  · rintro (hp | hp) <;>
      (simp only [purge_phase]; rw [hcalc]; dsimp only; rw [hp])
  · intro post hp
    simp only [purge_phase]
    rw [hcalc]
    dsimp only
    rw [hp]
  · intro e hp
    simp only [purge_phase]
    rw [hcalc]
    dsimp only
    rw [hp]

/-- Witness for C7: a successful purge at a concrete input advances the
root. -/
theorem purge_phase_outcomes_witness :
    purge_phase testEngine (.eraId ⟨5⟩) (some 50) 2 51 10 =
      (.ok 11, [.commitPurge ⟨10, [Key.eraInfo ⟨0⟩, Key.eraInfo ⟨1⟩]⟩]) :=
  (purge_phase_outcomes testEngine ⟨5⟩ 50 2 51 10
    [Key.eraInfo ⟨0⟩, Key.eraInfo ⟨1⟩] (by decide)).2.1 11 rfl

/-- C1: the eviction set submitted by `commit_step` contains a validator
iff it is inactive or an equivocator, and a validator present in both the
equivocator set and the inactive-validator set appears exactly once: the
set is the deduplicated union of the two (spec-modelled collection type,
see `StepRequest`). -/
theorem step_request_evict_items_union (protocol_version : Nat)
    (pre_state_root_hash : Digest) (era_report : EraReport)
    (era_end_timestamp_millis : Nat) (next_era_id : EraId) (v : PublicKey) :
    ((⟨v⟩ : EvictItem) ∈ (build_step_request protocol_version
        pre_state_root_hash era_report era_end_timestamp_millis
        next_era_id).evict_items ↔
      v ∈ era_report.inactive_validators ∨ v ∈ era_report.equivocators) ∧
    (v ∈ era_report.inactive_validators → v ∈ era_report.equivocators →
      ((build_step_request protocol_version pre_state_root_hash era_report
        era_end_timestamp_millis next_era_id).evict_items).count ⟨v⟩ = 1) := by
  have hinj : Function.Injective (fun v : PublicKey => (⟨v⟩ : EvictItem)) :=
    fun a b hab => congrArg EvictItem.validator_id hab
  constructor
  · simp [build_step_request, List.mem_map, List.mem_dedup, List.mem_append,
      EvictItem.mk.injEq]
  · intro h1 _
    simp only [build_step_request]
    rw [List.count_map_of_injective _ _ hinj v]
    exact List.count_eq_one_of_mem (List.nodup_dedup _)
      (List.mem_dedup.mpr (List.mem_append.mpr (Or.inl h1)))

/-- Witness for C1: validator 7 is both inactive and an equivocator, and is
evicted exactly once. -/
theorem step_request_evict_items_union_witness :
    ((build_step_request 1 10 ⟨[7], [], [7]⟩ 0 ⟨2⟩).evict_items).count ⟨7⟩ = 1 :=
  (step_request_evict_items_union 1 10 ⟨[7], [], [7]⟩ 0 ⟨2⟩ 7).2
    (by decide) (by decide)

/-- The request-chaining relation for the deploy loop: each transaction's
execute request is built against the working root left by committing the
previous transaction's effect (starting from the pre-state root), so every
transaction observes all strictly-earlier transactions' effects in the same
block. -/
inductive ReqChain (engine_state : Engine)
    (block_time protocol_version : Nat) (proposer : PublicKey) :
    Digest → List Deploy → List Event → Digest → Prop
  | nil (root : Digest) :
      ReqChain engine_state block_time protocol_version proposer root [] []
        root
  | cons (root : Digest) (deploy : Deploy) (rest : List Deploy)
      (rest_evs : List Event) (final_root : Digest)
      (results : List EngineExecutionResult) (r : EngineExecutionResult)
      (new_root : Digest)
      (hexec : engine_state.run_execute
        (mkExecuteRequest root block_time deploy protocol_version proposer) =
          .ok results)
      (hone : exactly_one results = some r)
      (hcommit : engine_state.apply_effect root r.journal = .ok new_root)
      (hrest : ReqChain engine_state block_time protocol_version proposer
        new_root rest rest_evs final_root) :
      ReqChain engine_state block_time protocol_version proposer root
        (deploy :: rest)
        (.runExecute
            (mkExecuteRequest root block_time deploy protocol_version
              proposer) ::
          .applyEffect root r.journal :: rest_evs)
        final_root

/-- Characterisation of a successful `commit_execution_effects`. -/
theorem commit_execution_effects_ok {engine_state : Engine}
    {state_root_hash : Digest} {deploy_hash : DeployHash}
    {execution_results : List EngineExecutionResult} {new_root : Digest}
    {er : ExecutionResult} {evs : List Event}
    (h : commit_execution_effects engine_state state_root_hash deploy_hash
      execution_results = (.ok (new_root, er), evs)) :
    ∃ r, exactly_one execution_results = some r ∧
      engine_state.apply_effect state_root_hash r.journal = .ok new_root ∧
      er = ExecutionResult.ofEngine r ∧
      evs = [.applyEffect state_root_hash r.journal] := by
  unfold commit_execution_effects commit_transforms at h
  split at h
  · exact absurd h (by simp)
  rename_i r hone
  dsimp only at h
  split at h
  · exact absurd h (by simp)
  rename_i nr evs' heq
  simp only [Prod.mk.injEq, Except.ok.injEq] at heq h
  obtain ⟨happly, hevs⟩ := heq
  obtain ⟨⟨h1, h2⟩, h3⟩ := h
  subst h1 h2 h3 hevs
  exact ⟨r, hone, happly, rfl, rfl⟩

/-- A successful run of the deploy loop satisfies the chaining relation and
records one result per transaction, in the given order. -/
theorem run_deploys_ok (engine_state : Engine)
    (block_time protocol_version : Nat) (proposer : PublicKey)
    (txs : List Deploy) :
    ∀ (root final_root : Digest)
      (results : List (DeployHash × DeployHeader × ExecutionResult))
      (evs : List Event),
      run_deploys engine_state block_time protocol_version proposer root
        txs = (.ok (final_root, results), evs) →
      ReqChain engine_state block_time protocol_version proposer root txs
        evs final_root ∧
      results.map (fun x => x.1) = txs.map Deploy.id ∧
      results.map (fun x => x.2.1) = txs.map Deploy.header := by
  induction txs with
  | nil =>
    intro root final_root results evs h
    unfold run_deploys at h
    simp only [Prod.mk.injEq, Except.ok.injEq] at h
    obtain ⟨⟨h1, h2⟩, h3⟩ := h
    subst h1 h2 h3
    exact ⟨ReqChain.nil root, rfl, rfl⟩
  | cons deploy rest ih =>
    intro root final_root results evs h
    unfold run_deploys at h
    dsimp only at h
    split at h
    · exact absurd h (by simp)
    rename_i res hexec
    split at h
    · exact absurd h (by simp)
    rename_i state_hash execution_result evs2 hcommit
    split at h
    · exact absurd h (by simp)
    rename_i rest_root rest_results rest_evs hrest
    simp only [Prod.mk.injEq, Except.ok.injEq] at h
    obtain ⟨⟨h1, h2⟩, h3⟩ := h
    subst h1 h2 h3
    obtain ⟨r, hone, happly, her, hevs⟩ := commit_execution_effects_ok hcommit
    obtain ⟨hchain, hids, hheaders⟩ := ih state_hash rest_root rest_results
      rest_evs hrest
    subst hevs
    refine ⟨?_, ?_, ?_⟩
    · exact ReqChain.cons root deploy rest rest_evs rest_root res r
        state_hash hexec hone happly hchain
    · simp [hids]
    · simp [hheaders]

/-- Inversion of a successful `execute_finalized_block`: every phase
succeeded and the output is assembled from their results. -/
theorem execute_finalized_block_ok_inv {engine_state : Engine}
    {protocol_version : Nat} {execution_pre_state : ExecutionPreState}
    {finalized_block : FinalizedBlock} {deploys transfers : List Deploy}
    {activation_point : ActivationPoint}
    {activation_point_block_height : Option Nat} {purge_batch_size : Nat}
    {bee : BlockAndExecutionEffects}
    (h : (execute_finalized_block engine_state protocol_version
      execution_pre_state finalized_block deploys transfers activation_point
      activation_point_block_height purge_batch_size).1 = .ok bee) :
    ∃ root_after_deploys results deploy_evs root_after_step maybe_step
      step_evs final_root purge_evs block,
      run_deploys engine_state finalized_block.timestamp_millis
          protocol_version finalized_block.proposer
          execution_pre_state.pre_state_root_hash (deploys ++ transfers) =
        (.ok (root_after_deploys, results), deploy_evs) ∧
      step_phase engine_state protocol_version finalized_block
          root_after_deploys =
        (.ok (root_after_step, maybe_step), step_evs) ∧
      purge_phase engine_state activation_point
          activation_point_block_height purge_batch_size
          finalized_block.height root_after_step =
        (.ok final_root, purge_evs) ∧
      Block.new execution_pre_state.parent_hash
          execution_pre_state.parent_seed final_root finalized_block
          (maybe_step.bind (fun s => lookupEra s.upcoming_era_validators
            finalized_block.era_id.successor)) protocol_version =
        .ok block ∧
      bee = ⟨block, results.map (fun x => (x.1, (x.2.1, x.2.2))),
        maybe_step⟩ := by
  unfold execute_finalized_block at h
  split at h
  · exact absurd h (by simp)
  rcases hrun : run_deploys engine_state finalized_block.timestamp_millis
      protocol_version finalized_block.proposer
      execution_pre_state.pre_state_root_hash (deploys ++ transfers) with
    ⟨runExc, deploy_evs⟩
  rw [hrun] at h
  cases runExc with
  | error e => exact absurd h (by simp)
  | ok pr =>
    obtain ⟨root_after_deploys, results⟩ := pr
    dsimp only at h
    rcases hstep : step_phase engine_state protocol_version finalized_block
        root_after_deploys with ⟨stepExc, step_evs⟩
    rw [hstep] at h
    cases stepExc with
    | error e => exact absurd h (by simp)
    | ok pr2 =>
      obtain ⟨root_after_step, maybe_step⟩ := pr2
      dsimp only at h
      rcases hflush : engine_state.flush_environment with e | u
      all_goals rw [hflush] at h
      · exact absurd h (by simp)
      dsimp only at h
      rcases hpurge : purge_phase engine_state activation_point
          activation_point_block_height purge_batch_size
          finalized_block.height root_after_step with ⟨purgeExc, purge_evs⟩
      rw [hpurge] at h
      cases purgeExc with
      | error e => exact absurd h (by simp)
      | ok final_root =>
        dsimp only at h
        rcases hblock : Block.new execution_pre_state.parent_hash
            execution_pre_state.parent_seed final_root finalized_block
            (maybe_step.bind (fun s => lookupEra s.upcoming_era_validators
              finalized_block.era_id.successor)) protocol_version with
          e | block
        all_goals rw [hblock] at h
        · exact absurd h (by simp)
        dsimp only at h
        simp only [Except.ok.injEq] at h
        exact ⟨root_after_deploys, results, deploy_evs, root_after_step,
          maybe_step, step_evs, final_root, purge_evs, block, rfl, hstep,
          hpurge, hblock, h.symm⟩

/-- C8: `execute_finalized_block` processes all deploys first and then all
transfers, in their given order; each transaction's execute request is
built against the current working root — the root produced by committing
the previous transaction's effect, starting from the pre-state root
(`ReqChain`) — so every transaction observes all strictly-earlier
transactions' effects in the same block, and one result per transaction is
recorded in execution order. -/
theorem execute_finalized_block_sequential (engine_state : Engine)
    (protocol_version : Nat) (execution_pre_state : ExecutionPreState)
    (finalized_block : FinalizedBlock) (deploys transfers : List Deploy)
    (activation_point : ActivationPoint)
    (activation_point_block_height : Option Nat) (purge_batch_size : Nat)
    (bee : BlockAndExecutionEffects)
    (h : (execute_finalized_block engine_state protocol_version
      execution_pre_state finalized_block deploys transfers activation_point
      activation_point_block_height purge_batch_size).1 = .ok bee) :
    ∃ root_after_deploys results loop_evs,
      run_deploys engine_state finalized_block.timestamp_millis
          protocol_version finalized_block.proposer
          execution_pre_state.pre_state_root_hash (deploys ++ transfers) =
        (.ok (root_after_deploys, results), loop_evs) ∧
      ReqChain engine_state finalized_block.timestamp_millis
        protocol_version finalized_block.proposer
        execution_pre_state.pre_state_root_hash (deploys ++ transfers)
        loop_evs root_after_deploys ∧
      results.map (fun x => x.1) = (deploys ++ transfers).map Deploy.id ∧
      results.map (fun x => x.2.1) =
        (deploys ++ transfers).map Deploy.header ∧
      bee.execution_results =
        results.map (fun x => (x.1, (x.2.1, x.2.2))) := by
  obtain ⟨root_after_deploys, results, deploy_evs, _, _, _, _, _, _, hrun,
    _, _, _, hbee⟩ := execute_finalized_block_ok_inv h
  obtain ⟨hchain, hids, hheaders⟩ :=
    run_deploys_ok engine_state finalized_block.timestamp_millis
      protocol_version finalized_block.proposer (deploys ++ transfers)
      execution_pre_state.pre_state_root_hash root_after_deploys
      results deploy_evs hrun
  exact ⟨root_after_deploys, results, deploy_evs, hrun, hchain,
    hids, hheaders, by rw [hbee]⟩

/-- A deploy used by the witnesses. -/
def d1 : Deploy := ⟨100, 0⟩

/-- A transfer used by the witnesses. -/
def d2 : Deploy := ⟨200, 0⟩

/-- A pre-state used by the witnesses. -/
def ps1 : ExecutionPreState := ⟨10, 1, 2, 5⟩

/-- A non-switch finalized block used by the witnesses. -/
def fb1 : FinalizedBlock := ⟨5, 1000, ⟨1⟩, none, 9⟩

/-- The block-and-effects output of `execute_finalized_block` on
`testEngine`, `ps1`, `fb1`, deploys `[d1]` and transfers `[d2]`. -/
def bee1 : BlockAndExecutionEffects :=
  ⟨⟨1, 2, 12, fb1, none, 1⟩,
   [(100, (0, .success 1 10)), (200, (0, .success 1 10))], none⟩

/-- Witness for C8 at a concrete successful run with one deploy and one
transfer. -/
theorem execute_finalized_block_sequential_witness :
    ∃ root_after_deploys results loop_evs,
      run_deploys testEngine fb1.timestamp_millis 1 fb1.proposer
          ps1.pre_state_root_hash ([d1] ++ [d2]) =
        (.ok (root_after_deploys, results), loop_evs) ∧
      ReqChain testEngine fb1.timestamp_millis 1 fb1.proposer
        ps1.pre_state_root_hash ([d1] ++ [d2]) loop_evs
        root_after_deploys ∧
      results.map (fun x => x.1) = ([d1] ++ [d2]).map Deploy.id ∧
      results.map (fun x => x.2.1) = ([d1] ++ [d2]).map Deploy.header ∧
      bee1.execution_results =
        results.map (fun x => (x.1, (x.2.1, x.2.2))) :=
  execute_finalized_block_sequential testEngine 1 ps1 fb1 [d1] [d2]
    (.genesis 0) none 0 bee1 rfl

/-- A successfully created block for a switch block carries the era report
together with the (present) next-era validator weights. -/
theorem block_new_switch_has_weights {parent_hash parent_seed : Nat}
    {state_root_hash : Digest} {finalized_block : FinalizedBlock}
    {weights : Option ValidatorWeights} {protocol_version : Nat} {b : Block}
    {r : EraReport}
    (hok : Block.new parent_hash parent_seed state_root_hash finalized_block
      weights protocol_version = .ok b)
    (hr : finalized_block.era_report = some r) :
    ∃ w, weights = some w ∧ b.era_end = some (r, w) := by
  unfold Block.new at hok
  rw [hr] at hok
  cases weights with
  | none => exact Except.noConfusion hok
  | some w =>
    dsimp only at hok
    cases hok
    exact ⟨w, rfl, rfl⟩

/-- C6: `Block::new` rejects a switch block whose next-era validator
weights are absent (spec-modelled, internal error), and consequently a
block successfully produced by `execute_finalized_block` for a finalized
block carrying an era report always has next-era validator weights in its
era end: the pipeline never silently produces a switch block with absent
weights. -/
theorem execute_finalized_block_switch_weights :
    (∀ (parent_hash parent_seed : Nat) (state_root_hash : Digest)
      (finalized_block : FinalizedBlock) (protocol_version : Nat)
      (r : EraReport), finalized_block.era_report = some r →
      Block.new parent_hash parent_seed state_root_hash finalized_block
          none protocol_version =
        .error .missingNextEraValidatorWeights) ∧
    (∀ (engine_state : Engine) (protocol_version : Nat)
      (execution_pre_state : ExecutionPreState)
      (finalized_block : FinalizedBlock) (deploys transfers : List Deploy)
      (activation_point : ActivationPoint)
      (activation_point_block_height : Option Nat) (purge_batch_size : Nat)
      (r : EraReport) (bee : BlockAndExecutionEffects),
      finalized_block.era_report = some r →
      (execute_finalized_block engine_state protocol_version
        execution_pre_state finalized_block deploys transfers
        activation_point activation_point_block_height
        purge_batch_size).1 = .ok bee →
      ∃ w, bee.block.era_end = some (r, w)) := by
  constructor
  · intro parent_hash parent_seed state_root_hash finalized_block
      protocol_version r hr
    unfold Block.new
    rw [hr]
  · intro engine_state protocol_version execution_pre_state finalized_block
      deploys transfers activation_point activation_point_block_height
      purge_batch_size r bee hr hok
    obtain ⟨_, _, _, _, maybe_step, _, final_root, _, block, _, _, _,
      hblock, hbee⟩ := execute_finalized_block_ok_inv hok
    obtain ⟨w, _, hend⟩ := block_new_switch_has_weights hblock hr
    exact ⟨w, by rw [hbee]; exact hend⟩

/-- An empty era report used by the witnesses (era report present makes the
block a switch block). -/
def rpt2 : EraReport := ⟨[], [], []⟩

/-- A switch block used by the witnesses. -/
def fb2 : FinalizedBlock := ⟨5, 1000, ⟨1⟩, some rpt2, 9⟩

/-- The block-and-effects output of `execute_finalized_block` on
`testEngine`, `ps1`, `fb2` with no transactions. -/
def bee2 : BlockAndExecutionEffects :=
  ⟨⟨1, 2, 10, fb2, some (rpt2, [(7, 100)]), 1⟩, [],
   some ⟨5, [(⟨2⟩, [(7, 100)])]⟩⟩

/-- Witness for C6: building a switch block without weights is the internal
error, and a concrete successful switch-block run has its next-era
validator weights present. -/
theorem execute_finalized_block_switch_weights_witness :
    Block.new 1 2 10 fb2 none 1 =
      .error .missingNextEraValidatorWeights ∧
    ∃ w, bee2.block.era_end = some (rpt2, w) :=
  ⟨execute_finalized_block_switch_weights.1 1 2 10 fb2 1 rpt2 rfl,
   execute_finalized_block_switch_weights.2 testEngine 1 ps1 fb2 [] []
     (.genesis 0) none 0 rpt2 bee2 rfl rfl⟩

/-- C5 (code bug): the previous-block-height computation of operations.rs
line 213 is the unguarded u64 subtraction `finalized_block.height() - 1`:
at height 0 it wraps to `u64::MAX` (release mode; debug builds panic)
instead of being treated as "no prior block", and the purge phase of
`execute_finalized_block` then runs with `current_height = u64::MAX` — with
an activation height of `u64::MAX` the pipeline at block height 0 even
commits a purge of eras 0 and 1 rather than skipping the purge. -/
theorem previous_block_height_underflows :
    wrapping_sub_one 0 = 18446744073709551615 ∧
    Event.commitPurge ⟨10, [Key.eraInfo ⟨0⟩, Key.eraInfo ⟨1⟩]⟩ ∈
      (execute_finalized_block testEngine 1 ⟨10, 1, 2, 0⟩
        ⟨0, 1000, ⟨1⟩, none, 9⟩ [] [] (.eraId ⟨5⟩)
        (some 18446744073709551615) 2).2 := by
  constructor
  · decide
  · decide
